import Mathlib

/-!
Verification development for the nuisance-residualization and final-stage
CATE-regression engine of a Double Machine Learning library
(`econml/dml.py`).  Matrices are modelled as lists of rows with rational
entries; the user-supplied scikit-learn regressors, classifiers and
featurizers are modelled as opaque functions.
-/

/-- A numeric 2-D array: a list of rows. -/
abbrev Mat := List (List ℚ)

/-- A rank-3 tensor, indexed sample-major: `[i][y][t]`. -/
abbrev Tensor3 := List (List (List ℚ))

/-- Modelled from the spec: column-wise concatenation of two blocks with one
row per sample (`hstack`, which is not part of the source under review). -/
def hstack2 (A B : Mat) : Mat := List.zipWith (fun a b => a ++ b) A B

/-- A constant column of ones with `n` rows (`np.ones((n, 1))`). -/
def onesMat (n : ℕ) : Mat := List.replicate n [(1 : ℚ)]

/-- Row-wise outer product of two rows, flattened feature-major (the entry
for feature `f` and treatment `t` sits at position `f * |b| + t`). -/
def crossRow (a b : List ℚ) : List ℚ := a.flatMap fun x => b.map fun y => x * y

/-- Modelled from the spec: `cross_product`, the row-wise outer product of two
feature blocks, flattened in a fixed feature-major order (the function itself
is not part of the source under review, only its callers are). -/
def cross_product (A B : Mat) : Mat := List.zipWith crossRow A B

/-- Modelled from the spec: `add_intercept` prepends a constant-one intercept
column to a feature block. -/
def add_intercept (A : Mat) : Mat := A.map fun r => (1 : ℚ) :: r

/-- The `i`-th unit ("one-hot") treatment row of dimension `d`. -/
def unitRow (d i : ℕ) : List ℚ := (List.range d).map fun j => if j = i then 1 else 0

/-- Modelled from the spec: `to_label` / `inverse_onehot`, the inverse of the
drop-first one-hot encoding; a row whose first set column is `j` is mapped to
label `j + 1` and an all-zero row to the baseline label `0` (the function is
not part of the source under review). -/
def inverse_onehot (M : Mat) : List ℚ :=
  M.map fun r => ((r.findIdx? fun v => decide (v ≠ 0)).map fun j => ((j : ℚ) + 1)).getD 0

/-- A 1-D or 2-D numeric array, tracking `np.ndim`. -/
inductive NArr where
  | vec : List ℚ → NArr
  | mat : Mat → NArr
deriving Repr

/-- `np.ndim`. -/
def NArr.ndim : NArr → ℕ
  | .vec _ => 1
  | .mat _ => 2

/-- `shape(a)[1:]` as a list of trailing dimensions. -/
def NArr.dTail : NArr → List ℕ
  | .vec _ => []
  | .mat m => [(m.headD []).length]

/-- `shape(a)[0]`. -/
def NArr.nrows : NArr → ℕ
  | .vec v => v.length
  | .mat m => m.length

/-- `np.ravel`, row-major flattening. -/
def NArr.ravel : NArr → List ℚ
  | .vec v => v
  | .mat m => m.flatten

/-- View an array as a 2-D matrix (a vector becomes a single column). -/
def NArr.toMat : NArr → Mat
  | .vec v => v.map fun x => [x]
  | .mat m => m

/-- A scikit-learn style featurizer, modelled as a pair of row maps: the row
behaviour of `fit_transform` during fitting and of `transform` afterwards. -/
structure Featurizer where
  fitRow : List ℚ → List ℚ
  row : List ℚ → List ℚ

/-- `fit_transform`: fit the featurizer on the data and transform it. -/
def Featurizer.fitTransform (f : Featurizer) (M : Mat) : Mat := M.map f.fitRow

/-- `transform`: apply the already-fitted featurizer. -/
def Featurizer.transform (f : Featurizer) (M : Mat) : Mat := M.map f.row

section ListLemmas

theorem getD_map_lt {α β : Type} (f : α → β) (l : List α) (k : ℕ) (hk : k < l.length)
    (d : β) (d' : α) : (l.map f).getD k d = f (l.getD k d') := by
  rw [List.getD_eq_getElem l d' hk,
    List.getD_eq_getElem (l.map f) d (by simpa using hk)]
  simp

theorem getD_range_map {α : Type} (f : ℕ → α) (N k : ℕ) (hk : k < N) (d : α) :
    ((List.range N).map f).getD k d = f k := by
  rw [getD_map_lt f (List.range N) k (by simpa using hk) d 0]
  congr 1
  rw [List.getD_eq_getElem (List.range N) 0 (by simpa using hk)]
  simp

theorem getD_zipWith_lt {α β γ : Type} (f : α → β → γ) (as : List α) (bs : List β)
    (k : ℕ) (ha : k < as.length) (hb : k < bs.length) (d : γ) (da : α) (db : β) :
    (List.zipWith f as bs).getD k d = f (as.getD k da) (bs.getD k db) := by
  have hlen : k < (List.zipWith f as bs).length := by
    simp [List.length_zipWith]; omega
  rw [List.getD_eq_getElem _ d hlen, List.getD_eq_getElem as da ha,
    List.getD_eq_getElem bs db hb]
  exact List.getElem_zipWith

end ListLemmas

/-- A scikit-learn style fittable predictor returned by a regressor's `fit`:
its `predict` maps one input row to one output row. -/
structure Predictor where
  predict : List ℚ → List ℚ

/-- An opaque underlying regressor or classifier: `fit` receives the design
matrix, the target block, an optional sample weight vector and an optional
sample variance vector, and returns a fitted predictor. -/
structure Regressor where
  fit : Mat → Mat → Option (List ℚ) → Option (List ℚ) → Predictor

/-- An opaque first-stage model: `fitR` receives the combined input block, the
target (labels or values), optional sample weights and opaque groups. -/
structure FSRegressor where
  fitR : Mat → NArr → Option (List ℚ) → Option (List ℚ) → Predictor

/-- The error raised by the first-stage wrapper (the spec's
`InvalidFoldSplit` kind). -/
inductive FSErr where
  | invalidFoldSplit
deriving Repr, DecidableEq

/-- Translation of `_FirstStageWrapper.__init__`'s stored configuration. -/
structure FirstStageWrapper where
  is_Y : Bool
  linear_first_stages : Bool
  discrete_treatment : Bool
  featurizer : Option Featurizer

/-- Translation of `_FirstStageWrapper._combine`. -/
def FirstStageWrapper.combine (w : FirstStageWrapper) (X W : Option Mat)
    (n_samples : ℕ) (fitting : Bool) : Mat :=
  match X with
  | none =>
    match W with
    | some wm => wm
    | none => onesMat n_samples
  | some x =>
    let XW := match W with
      | some wm => hstack2 x wm
      | none => x
    if w.is_Y && w.linear_first_stages then
      let F := match w.featurizer with
        | none => x
        | some f => if fitting then f.fitTransform x else f.transform x
      cross_product XW (hstack2 (onesMat XW.length) F)
    else XW

/-- Translation of the fold-coverage check in `_FirstStageWrapper.fit`:
`np.any(np.all(Target == 0, axis=0)) or (not np.any(np.all(Target == 0, axis=1)))`. -/
def foldCheckFails (Tm : Mat) : Bool :=
  ((List.range (Tm.headD []).length).any fun j =>
    Tm.all fun r => decide (r.getD j 0 = 0)) ||
  !(Tm.any fun r => r.all fun v => decide (v = 0))

/-- Translation of `_FirstStageWrapper.fit`; the `fit_with_groups` helper is
absorbed into the opaque model's `fitR`. -/
def FirstStageWrapper.fit (w : FirstStageWrapper) (model : FSRegressor)
    (X W : Option Mat) (Target : NArr) (sample_weight groups : Option (List ℚ)) :
    Except FSErr Predictor :=
  if !w.is_Y && w.discrete_treatment then
    let Tm := Target.toMat
    if foldCheckFails Tm then .error .invalidFoldSplit
    else .ok (model.fitR (w.combine X W Tm.length true) (.vec (inverse_onehot Tm))
      sample_weight groups)
  else
    .ok (model.fitR (w.combine X W Target.nrows true) Target sample_weight groups)

/-- Translation of `_FirstStageWrapper.score`: the optional scoring capability
of the underlying model is passed as an optional function. -/
def FirstStageWrapper.score (w : FirstStageWrapper)
    (scoreFn : Option (Mat → NArr → Option (List ℚ) → ℚ))
    (X W : Option Mat) (Target : NArr) (sample_weight : Option (List ℚ)) : Option ℚ :=
  match scoreFn with
  | none => none
  | some f =>
    let Tgt := if !w.is_Y && w.discrete_treatment
      then NArr.vec (inverse_onehot Target.toMat) else Target
    some (f (w.combine X W Tgt.nrows true) Tgt sample_weight)

/-- The errors raised by the final-stage wrapper.  The first three are the
spec's `InfeasibleConfiguration` kind, the last its
`UnsupportedTreatmentDimension` kind. -/
inductive FinalErr where
  | weightTrickNoX
  | noXNoIntercept
  | infeasibleCombo
  | unsupportedTreatmentDim
deriving Repr, DecidableEq

/-- Which error constructors belong to the spec's `InfeasibleConfiguration`
error kind. -/
def FinalErr.isInfeasibleConfiguration : FinalErr → Bool
  | .weightTrickNoX => true
  | .noXNoIntercept => true
  | .infeasibleCombo => true
  | .unsupportedTreatmentDim => false

/-- The configuration stored by `_FinalWrapper.__init__`. -/
structure FinalWrapper where
  fitCateIntercept : Bool
  useWeightTrick : Bool
  featurizer : Option Featurizer

/-- Compose a featurizer with the intercept-prepending transform (the
`Pipeline([featurize, add_intercept])` of the source). -/
def Featurizer.withIntercept (f : Featurizer) : Featurizer :=
  { fitRow := fun r => 1 :: f.fitRow r, row := fun r => 1 :: f.row r }

/-- The intercept-only featurizer (`FunctionTransformer(add_intercept)`). -/
def interceptFeaturizer : Featurizer :=
  { fitRow := fun r => 1 :: r, row := fun r => 1 :: r }

/-- Translation of `_FinalWrapper.__init__`: with the weight trick the stored
intercept flag is forced to `False` and the featurizer kept as given;
otherwise a requested intercept wraps the featurizer with `add_intercept`. -/
def FinalWrapper.init (fit_cate_intercept : Bool) (featurizer : Option Featurizer)
    (use_weight_trick : Bool) : FinalWrapper :=
  if use_weight_trick then
    { fitCateIntercept := false, useWeightTrick := true, featurizer := featurizer }
  else if fit_cate_intercept then
    { fitCateIntercept := true, useWeightTrick := false,
      featurizer := some (match featurizer with
        | some f => f.withIntercept
        | none => interceptFeaturizer) }
  else
    { fitCateIntercept := false, useWeightTrick := false, featurizer := featurizer }

/-- Translation of `_FinalWrapper._combine`. -/
def FinalWrapper.combine (w : FinalWrapper) (X : Option Mat) (T : Mat)
    (fitting : Bool) : Except FinalErr Mat :=
  match X with
  | some x =>
    let F := match w.featurizer with
      | some f => if fitting then f.fitTransform x else f.transform x
      | none => x
    .ok (cross_product F T)
  | none =>
    if !w.fitCateIntercept then
      if w.useWeightTrick then .error .weightTrickNoX
      else .error .noXNoIntercept
    else .ok (cross_product (onesMat T.length) T)

/-- Translation of `sign_T_res` with entries strictly between `-1` and `1`
(i.e. zero) replaced by `1`. -/
def signFix (t : ℚ) : ℚ := if t < 0 then -1 else 1

/-- Translation of `clipped_T_res`: `sign * clip(|t|, 1e-5, inf)`. -/
def clipT (t : ℚ) : ℚ := signFix t * max |t| (1 / 100000)

/-- The state of a fitted `_FinalWrapper`: the wrapper configuration, the
fitted underlying model, the recorded intercept correction, the training
dimensions and whether the nonzero-intercept warning was emitted. -/
structure FittedFinal where
  w : FinalWrapper
  predictor : Predictor
  intercept : Option (List ℚ)
  d_t : List ℕ
  d_y : List ℕ
  warnedIntercept : Bool

/-- Translation of `_FinalWrapper.fit`. -/
def FinalWrapper.fit (w : FinalWrapper) (model : Regressor) (X : Option Mat)
    (T_res Y_res : NArr) (sample_weight sample_var : Option (List ℚ)) :
    Except FinalErr FittedFinal :=
  let d_t := T_res.dTail
  let d_y := Y_res.dTail
  if !w.useWeightTrick then
    match w.combine X T_res.toMat true with
    | .error e => .error e
    | .ok fts =>
      let p := model.fit fts Y_res.toMat sample_weight sample_var
      let ic := ((fts.take 1).map fun r => p.predict (r.map fun _ => (0 : ℚ))).flatten
      if ic.any fun c => decide (c ≠ 0) then
        .ok ⟨w, p, some ic, d_t, d_y, true⟩
      else
        .ok ⟨w, p, none, d_t, d_y, false⟩
  else if !w.fitCateIntercept then
    if 1 < T_res.ndim ∧ 1 < d_t.headD 0 then
      .error .unsupportedTreatmentDim
    else
      match w.combine X (onesMat T_res.nrows) true with
      | .error e => .error e
      | .ok F =>
        let Tr := T_res.ravel
        let clipped := Tr.map clipT
        let target : Mat := match Y_res with
          | .vec y => (List.zipWith (fun yi c => yi / c) y clipped).map fun v => [v]
          | .mat Ym => List.zipWith (fun row c => row.map fun v => v / c) Ym clipped
        let target_var := sample_var.map fun sv =>
          List.zipWith (fun v c => v / c ^ 2) sv clipped
        let weight := match sample_weight with
          | some sw => List.zipWith (fun a b => a * b ^ 2) sw Tr
          | none => Tr.map fun b => b ^ 2
        .ok ⟨w, model.fit F target (some weight) target_var, none, d_t, d_y, false⟩
  else .error .infeasibleCombo

/-- The prediction rows of the fitted final model on a design matrix, with the
recorded intercept correction subtracted (`prediction -= self._intercept`). -/
def FittedFinal.adjustedRows (g : FittedFinal) (M : Mat) : Mat :=
  let P := M.map g.predictor.predict
  match g.intercept with
  | some ic => P.map fun r => List.zipWith (fun a b => a - b) r ic
  | none => P

/-- Modelled from the spec: `reshape_treatmentwise_effects` turns the stacked
flat predictions (rows = samples x d_t, columns = d_y) into a
(samples, d_y, d_t) tensor (the function is not part of the source under
review). -/
def reshape_treatmentwise_effects (P : Mat) (d_t d_y : List ℕ) : Tensor3 :=
  let dt := d_t.headD 1
  let dy := d_y.headD 1
  (List.range (P.length / dt)).map fun i =>
    (List.range dy).map fun y =>
      (List.range dt).map fun t => (P.getD (i * dt + t) []).getD y 0

/-- Translation of `_FinalWrapper.predict`; `broadcast_unit_treatments` is
modelled from the spec as broadcasting each requested row of `X` across the
`d_t` unit treatment vectors (row `k` pairs sample `k / d_t` with the unit
treatment `k % d_t`). -/
def FittedFinal.predict (g : FittedFinal) (X : Option Mat) :
    Except FinalErr Tensor3 :=
  let dt := g.d_t.headD 1
  let Xb : Mat := match X with
    | some x => x
    | none => [([] : List ℚ)]
  let X2 := (List.range (Xb.length * dt)).map fun k => Xb.getD (k / dt) []
  let T := (List.range (Xb.length * dt)).map fun k => unitRow dt (k % dt)
  match g.w.combine (match X with | some _ => some X2 | none => none) T false with
  | .error e => .error e
  | .ok M => .ok (reshape_treatmentwise_effects (g.adjustedRows M) g.d_t g.d_y)

/-- A user-supplied first-stage model object, either the literal string
`'auto'` or a concrete estimator identified opaquely. -/
inductive UserModel where
  | auto
  | mk (id : ℕ)
deriving Repr, DecidableEq

/-- `sklearn.base.clone(model, safe=False)`: produces an equivalent unfitted
copy of the estimator, modelled as the identity. -/
def cloneModel (m : UserModel) : UserModel := m

/-- Resolution of the `'auto'` outcome model to the default
`WeightedLassoCVWrapper`, identified opaquely as `UserModel.mk 0`. -/
def resolveAutoY (m : UserModel) : UserModel :=
  if m = .auto then .mk 0 else m

/-- The constructor arguments recorded by `_FirstStageWrapper.__init__`
(`model, is_Y, featurizer, linear_first_stages, discrete_treatment`). -/
structure FirstStageWrapperInit where
  model : UserModel
  is_Y : Bool
  featurizer : Option Featurizer
  linear_first_stages : Bool
  discrete_treatment : Bool

/-- The attributes of a `DML` estimator instance that participate in the
first-stage model properties and setters. -/
structure DMLState where
  _model_y : UserModel
  _model_t : UserModel
  _featurizer : Option Featurizer
  _linear_first_stages : Bool
  _discrete_treatment : Bool
  _rlearner_model_y : FirstStageWrapperInit
  _rlearner_model_t : FirstStageWrapperInit

/-- Translation of `DML._prepare_model_y`: stores the given model in
`self._model_y`, resolves `'auto'`, and builds a first-stage wrapper with
`is_Y=True`. -/
def DMLState.prepare_model_y (s : DMLState) (model_y : UserModel) :
    DMLState × FirstStageWrapperInit :=
  ({ s with _model_y := model_y },
   { model := resolveAutoY model_y, is_Y := true, featurizer := s._featurizer,
     linear_first_stages := s._linear_first_stages,
     discrete_treatment := s._discrete_treatment })

/-- Translation of the `DML.model_t` property setter: clones the assigned
model and stores the wrapper produced by `self._prepare_model_y` in
`self._rlearner_model_t`. -/
def DMLState.set_model_t (s : DMLState) (model_t : UserModel) : DMLState :=
  let mt := cloneModel model_t
  let sw := s.prepare_model_y mt
  { sw.1 with _rlearner_model_t := sw.2 }

/-- The `DML.model_y` property getter. -/
def DMLState.model_y_prop (s : DMLState) : UserModel := s._model_y

/-- The `DML.model_t` property getter. -/
def DMLState.model_t_prop (s : DMLState) : UserModel := s._model_t

/-- The weighted square loss minimized by the weight-trick fit of
`_FinalWrapper.fit`: sample weight `T_i ** 2` against target
`Y_i / clipped_T_i`, evaluated at a candidate prediction vector `c`. -/
def wtLoss {n : ℕ} (T Y c : Fin n → ℚ) : ℚ :=
  ∑ i, (T i) ^ 2 * (Y i / clipT (T i) - c i) ^ 2

/-- The residual-on-residual square loss minimized by the standard-mode fit
on the design `cross_product(Features(X), T_res)` for single-dimensional
treatment, evaluated at a candidate prediction vector `c`. -/
def stdLoss {n : ℕ} (T Y c : Fin n → ℚ) : ℚ :=
  ∑ i, (Y i - c i * T i) ^ 2

/-- Follows the spec's words (claim C4 as amended): the first-stage input
block is the cross product of `[X, W]` with `[1, featurizer(X)]` when the
wrapper is the outcome model with `linearFirstStage` set and X is present,
and otherwise the plain concatenation of the present blocks among X and W, or
a ones-column when both are absent. -/
def firstStageInputSpec (w : FirstStageWrapper) (X W : Option Mat)
    (n_samples : ℕ) (fitting : Bool) : Mat :=
  match X, W with
  | none, none => onesMat n_samples
  | none, some wm => wm
  | some x, _ =>
    let XW := match W with
      | some wm => hstack2 x wm
      | none => x
    if w.is_Y && w.linear_first_stages then
      let F := match w.featurizer with
        | none => x
        | some f => if fitting then f.fitTransform x else f.transform x
      cross_product XW (hstack2 (onesMat XW.length) F)
    else XW

/-- A constant first-stage model used to instantiate theorems. -/
def constFSReg : FSRegressor := ⟨fun _ _ _ _ => ⟨fun _ => [0]⟩⟩

/-- A constant final-stage regressor whose predictions are always `[0]`. -/
def constReg : Regressor := ⟨fun _ _ _ _ => ⟨fun _ => [0]⟩⟩

/-- A constant final-stage regressor whose predictions are always `[3]`. -/
def constReg3 : Regressor := ⟨fun _ _ _ _ => ⟨fun _ => [3]⟩⟩

/-- A featurizer producing the constant feature row `[5]`. -/
def constFeat5 : Featurizer := ⟨fun _ => [5], fun _ => [5]⟩

/-- C9: assigning a model to the `model_t` property builds the replacement
first-stage wrapper through the outcome-model preparation path — the new
treatment-stage wrapper is constructed with `is_Y = true`, and afterwards the
`model_y` property returns the model object that was just assigned to
`model_t`. -/
theorem model_t_setter_uses_outcome_path (s : DMLState) (m : UserModel) :
    ((s.set_model_t m)._rlearner_model_t).is_Y = true ∧
    (s.set_model_t m).model_y_prop = cloneModel m ∧ cloneModel m = m :=
  ⟨rfl, rfl, rfl⟩

/-- C10: `score` never raises `InvalidFoldSplit`: for discrete treatment it
converts the one-hot `Target` to labels without the fold-coverage check that
`fit` performs, and for every input it returns either the underlying model's
score (when the score capability is present) or `none`. -/
theorem score_never_raises_invalid_fold_split (w : FirstStageWrapper)
    (f : Mat → NArr → Option (List ℚ) → ℚ) (X W : Option Mat) (Target : NArr)
    (sw : Option (List ℚ)) :
    w.score none X W Target sw = none ∧
    w.score (some f) X W Target sw =
      some (f (w.combine X W (if !w.is_Y && w.discrete_treatment
                then NArr.vec (inverse_onehot Target.toMat) else Target).nrows true)
              (if !w.is_Y && w.discrete_treatment
                then NArr.vec (inverse_onehot Target.toMat) else Target) sw) :=
  ⟨rfl, rfl⟩

/-- C4 counterexample: for the outcome model with `linear_first_stages` set
but `X` absent and `W` present, `_combine` returns the plain `W` block, not
the cross product of `[X, W]` with `[1, featurizer(X)]` that the claim
asserts for every such configuration (here the featurizer is constant, so
the claim's formula is well defined and yields a two-column block). -/
theorem first_stage_combine_counterexample :
    (FirstStageWrapper.mk true true false (some constFeat5)).combine
        none (some [[2]]) 1 true = [[2]] ∧
    cross_product [[2]] (hstack2 (onesMat 1) (constFeat5.fitTransform [[2]])) = [[2, 10]] ∧
    decide (([[2]] : Mat) = [[2, 10]]) = false :=
  ⟨rfl, by norm_num [cross_product, crossRow, hstack2, onesMat,
    Featurizer.fitTransform, constFeat5], by decide⟩

/-- C4 as amended: the first-stage input block is the cross product of
`[X, W]` with `[1, featurizer(X)]` exactly when the wrapper is the outcome
model, `linearFirstStage` is set and `X` is present; in every other
configuration it is the plain concatenation of the present blocks among `X`
and `W`, or a single ones-column when both are absent. -/
theorem first_stage_combine_amended (w : FirstStageWrapper) (X W : Option Mat)
    (n_samples : ℕ) (fitting : Bool) :
    w.combine X W n_samples fitting = firstStageInputSpec w X W n_samples fitting := by
  cases X <;> cases W <;> rfl

/-- The fold-coverage check of `_FirstStageWrapper.fit` succeeds-or-fails
exactly on this condition: some column of the one-hot block is all zero, or
no row of it is all zero. -/
theorem foldCheckFails_iff (Tm : Mat) :
    foldCheckFails Tm = true ↔
      (∃ j ∈ List.range (Tm.headD []).length, ∀ r ∈ Tm, r.getD j 0 = 0) ∨
      ¬ ∃ r ∈ Tm, ∀ v ∈ r, v = 0 := by
  simp [foldCheckFails, List.any_eq_true, List.all_eq_true]

/-- C2 counterexample: on the one-hot block `[[1]]` every column is set in
some row and every row has a set column, so the claim asserts that no error
is raised; the code raises `InvalidFoldSplit` (under the drop-first one-hot
encoding the absence of an all-zero row means the baseline category is
missing from the fold). -/
theorem fold_check_counterexample :
    (FirstStageWrapper.mk false false true none).fit constFSReg none none
        (.mat [[1]]) none none = .error .invalidFoldSplit ∧
    decide (∃ j ∈ List.range 1, ∀ r ∈ ([[1]] : Mat), r.getD j 0 = 0) = false ∧
    decide (∀ r ∈ ([[1]] : Mat), ∃ v ∈ r, v ≠ 0) = true :=
  ⟨rfl, by decide, by decide⟩

/-- C2 as amended: for discrete treatment, `fit` raises `InvalidFoldSplit`
exactly when the one-hot `Target` has some all-zero column or no all-zero
row; otherwise the conversion to labels succeeds and the underlying model is
fitted on them. -/
theorem fold_check_amended (lfs : Bool) (fz : Option Featurizer)
    (model : FSRegressor) (X W : Option Mat) (Tm : Mat)
    (sw g : Option (List ℚ)) :
    ((FirstStageWrapper.mk false lfs true fz).fit model X W (.mat Tm) sw g
        = .error .invalidFoldSplit ↔
      (∃ j ∈ List.range (Tm.headD []).length, ∀ r ∈ Tm, r.getD j 0 = 0) ∨
      ¬ ∃ r ∈ Tm, ∀ v ∈ r, v = 0) ∧
    (¬ ((∃ j ∈ List.range (Tm.headD []).length, ∀ r ∈ Tm, r.getD j 0 = 0) ∨
        ¬ ∃ r ∈ Tm, ∀ v ∈ r, v = 0) →
      (FirstStageWrapper.mk false lfs true fz).fit model X W (.mat Tm) sw g
        = .ok (model.fitR
            ((FirstStageWrapper.mk false lfs true fz).combine X W Tm.length true)
            (.vec (inverse_onehot Tm)) sw g)) := by
  have hred : (FirstStageWrapper.mk false lfs true fz).fit model X W (.mat Tm) sw g
      = if foldCheckFails Tm then .error .invalidFoldSplit
        else .ok (model.fitR
          ((FirstStageWrapper.mk false lfs true fz).combine X W Tm.length true)
          (.vec (inverse_onehot Tm)) sw g) := rfl
  constructor
  · rw [hred]
    by_cases hf : foldCheckFails Tm = true
    · simp only [hf, if_true]
      exact iff_of_true trivial ((foldCheckFails_iff Tm).mp hf)
    · simp only [hf, Bool.false_eq_true, if_false]
      refine iff_of_false (by simp) fun hp => hf ((foldCheckFails_iff Tm).mpr hp)
  · intro hnot
    rw [hred]
    have hf : foldCheckFails Tm = false := by
      rcases Bool.eq_false_or_eq_true (foldCheckFails Tm) with h | h
      · exact absurd ((foldCheckFails_iff Tm).mp h) hnot
      · exact h
    simp [hf]

/-- C2 witness: on the one-hot block `[[0], [1]]` (baseline row present,
every column covered) the amended theorem applies and `fit` succeeds. -/
theorem fold_check_amended_witness :
    (FirstStageWrapper.mk false false true none).fit constFSReg none none
        (.mat [[0], [1]]) none none
      = .ok (constFSReg.fitR
          ((FirstStageWrapper.mk false false true none).combine none none 2 true)
          (.vec (inverse_onehot [[0], [1]])) none none) :=
  (fold_check_amended false none constFSReg none none [[0], [1]] none none).2 (by decide)

/-- Whether a final-stage fit result is a success. -/
def exOk : Except FinalErr FittedFinal → Bool
  | .ok _ => true
  | .error _ => false

/-- Whether a final-stage fit result is the `infeasibleCombo` error (the
unreachable `raise` of the weight-trick/intercept combination). -/
def isInfeasibleComboResult : Except FinalErr FittedFinal → Bool
  | .error .infeasibleCombo => true
  | _ => false

/-- Whether a final-stage fit result is the `UnsupportedTreatmentDimension`
error. -/
def isUTDResult : Except FinalErr FittedFinal → Bool
  | .error .unsupportedTreatmentDim => true
  | _ => false

/-- C3 counterexample: constructing the final wrapper with
`fit_cate_intercept=true` and `use_weight_trick=true` silently coerces the
stored intercept flag to false, and `fit` on a well-formed single-dimensional
input succeeds instead of failing with `InfeasibleConfiguration`. -/
theorem weight_trick_intercept_counterexample :
    exOk ((FinalWrapper.init true none true).fit constReg (some [[1]])
        (.vec [1]) (.vec [1]) none none) = true ∧
    (FinalWrapper.init true none true).fitCateIntercept = false :=
  ⟨rfl, rfl⟩

/-- The final-stage `_combine` can only raise the two absent-X errors. -/
theorem combine_error_cases (w : FinalWrapper) (X : Option Mat) (T : Mat)
    (ft : Bool) (e : FinalErr) (h : w.combine X T ft = .error e) :
    e = .weightTrickNoX ∨ e = .noXNoIntercept := by
  cases X with
  | some x => simp [FinalWrapper.combine] at h
  | none =>
    cases hf : w.fitCateIntercept with
    | true => simp [FinalWrapper.combine, hf] at h
    | false =>
      cases hu : w.useWeightTrick with
      | true =>
        simp [FinalWrapper.combine, hf, hu] at h
        exact Or.inl h.symm
      | false =>
        simp [FinalWrapper.combine, hf, hu] at h
        exact Or.inr h.symm

/-- For a wrapper whose stored flags never combine the weight trick with an
intercept (as every constructor-built wrapper does), `fit` never returns the
`infeasibleCombo` error. -/
theorem fit_never_infeasible_of (w : FinalWrapper)
    (hkey : w.useWeightTrick = true → w.fitCateIntercept = false)
    (model : Regressor) (X : Option Mat) (T Y : NArr)
    (sw sv : Option (List ℚ)) :
    isInfeasibleComboResult (w.fit model X T Y sw sv) = false := by
  by_cases hu : w.useWeightTrick = true
  · have hf : w.fitCateIntercept = false := hkey hu
    unfold FinalWrapper.fit
    rw [hu, hf]
    simp only [Bool.not_true, Bool.not_false, Bool.false_eq_true, if_false, if_true]
    split
    · rfl
    · rcases hc : w.combine X (onesMat T.nrows) true with e | F
      · rcases combine_error_cases w X (onesMat T.nrows) true e hc with h1 | h1 <;>
          (subst h1; rfl)
      · cases Y <;> rfl
  · have hu' : w.useWeightTrick = false := by revert hu; cases w.useWeightTrick <;> simp
    unfold FinalWrapper.fit
    rw [hu']
    simp only [Bool.not_false, if_true]
    rcases hc : w.combine X T.toMat true with e | fts
    · rcases combine_error_cases w X T.toMat true e hc with h1 | h1 <;>
        (subst h1; rfl)
    · dsimp only
      split <;> rfl

/-- C3 as amended: the constructor with `use_weight_trick=true` forces the
stored intercept flag to false regardless of the requested intercept, and for
every wrapper built by the constructor the `infeasibleCombo` branch of `fit`
is unreachable: `fit` never returns that error. -/
theorem weight_trick_intercept_amended (fci uwt : Bool) (fz : Option Featurizer)
    (model : Regressor) (X : Option Mat) (T Y : NArr)
    (sw sv : Option (List ℚ)) :
    (FinalWrapper.init fci fz true).fitCateIntercept = false ∧
    isInfeasibleComboResult ((FinalWrapper.init fci fz uwt).fit model X T Y sw sv)
      = false := by
  refine ⟨rfl, fit_never_infeasible_of _ ?_ model X T Y sw sv⟩
  intro hu
  cases uwt
  · cases fci <;> simp [FinalWrapper.init] at hu ⊢
  · rfl

/-- In standard mode, whenever `_combine` succeeds the fit succeeds and the
fitted predictor is the underlying model fitted on the combined design. -/
theorem standard_fit_ok (w : FinalWrapper) (hw : w.useWeightTrick = false)
    (model : Regressor) (X : Option Mat) (T Y : NArr)
    (sw sv : Option (List ℚ)) (fts : Mat)
    (hc : w.combine X T.toMat true = .ok fts) :
    ∃ g, w.fit model X T Y sw sv = .ok g ∧
      g.predictor = model.fit fts Y.toMat sw sv ∧
      g.w = w ∧ g.d_t = T.dTail ∧ g.d_y = Y.dTail := by
  unfold FinalWrapper.fit
  rw [hw]
  simp only [Bool.not_false, if_true]
  rw [hc]
  dsimp only
  split
  · exact ⟨_, rfl, rfl, rfl, rfl, rfl⟩
  · exact ⟨_, rfl, rfl, rfl, rfl, rfl⟩

/-- C7: in standard mode, `fit` with `X` absent fails with the
`InfeasibleConfiguration`-kind error `noXNoIntercept` unless an explicit
intercept is requested, in which case the feature block degenerates to a
single ones-column and the fit succeeds; the failure is returned by `fit`
itself, never deferred to `predict`. -/
theorem standard_no_X_fit (fci : Bool) (fz : Option Featurizer)
    (model : Regressor) (T Y : NArr) (sw sv : Option (List ℚ)) :
    (fci = false → (FinalWrapper.init fci fz false).fit model none T Y sw sv
        = .error .noXNoIntercept ∧
      FinalErr.noXNoIntercept.isInfeasibleConfiguration = true) ∧
    (fci = true → ∃ g, (FinalWrapper.init fci fz false).fit model none T Y sw sv
        = .ok g ∧
      g.predictor = model.fit (cross_product (onesMat T.toMat.length) T.toMat)
        Y.toMat sw sv) := by
  constructor
  · rintro rfl
    exact ⟨rfl, rfl⟩
  · rintro rfl
    rcases standard_fit_ok (FinalWrapper.init true fz false) rfl model none T Y
        sw sv (cross_product (onesMat T.toMat.length) T.toMat) rfl with
      ⟨g, h1, h2, _⟩
    exact ⟨g, h1, h2⟩

/-- C7 witness: at concrete inputs, the no-intercept configuration fails at
fit time with the `InfeasibleConfiguration`-kind error, and the
intercept-requested configuration succeeds on the ones-column design. -/
theorem standard_no_X_fit_witness :
    ((FinalWrapper.init false none false).fit constReg none (.vec [1]) (.vec [1])
        none none = .error .noXNoIntercept ∧
      FinalErr.noXNoIntercept.isInfeasibleConfiguration = true) ∧
    (∃ g, (FinalWrapper.init true none false).fit constReg none (.vec [1]) (.vec [1])
        none none = .ok g ∧
      g.predictor = constReg.fit
        (cross_product (onesMat (NArr.vec [1]).toMat.length) (NArr.vec [1]).toMat)
        (NArr.vec [1]).toMat none none) :=
  ⟨(standard_no_X_fit false none constReg (.vec [1]) (.vec [1]) none none).1 rfl,
   (standard_no_X_fit true none constReg (.vec [1]) (.vec [1]) none none).2 rfl⟩

/-- C8: with the weight trick, `fit` returns the
`UnsupportedTreatmentDimension` error exactly when the treatment residual
block is two-dimensional with more than one column; every one-dimensional or
single-column treatment residual passes the check. -/
theorem weight_trick_treatment_dim (fci : Bool) (fz : Option Featurizer)
    (model : Regressor) (X : Option Mat) (T Y : NArr) (sw sv : Option (List ℚ)) :
    isUTDResult ((FinalWrapper.init fci fz true).fit model X T Y sw sv)
      = decide (1 < T.ndim ∧ 1 < T.dTail.headD 0) := by
  have hw : FinalWrapper.init fci fz true
      = { fitCateIntercept := false, useWeightTrick := true, featurizer := fz } := rfl
  rw [hw]
  unfold FinalWrapper.fit
  simp only [Bool.not_true, Bool.not_false, Bool.false_eq_true, if_false, if_true]
  split
  · rename_i h
    rw [decide_eq_true h]
    rfl
  · rename_i h
    rw [decide_eq_false h]
    rcases hc : FinalWrapper.combine
        { fitCateIntercept := false, useWeightTrick := true, featurizer := fz }
        X (onesMat T.nrows) true with e | F
    · rcases combine_error_cases _ _ _ _ e hc with h1 | h1 <;> (subst h1; rfl)
    · cases Y <;> rfl

/-- Under the claim's hypothesis the clipping is the identity. -/
theorem clipT_eq_of_large (t : ℚ) (h : 1 / 100000 ≤ |t|) : clipT t = t := by
  have ht : t ≠ 0 := by
    intro h0
    rw [h0] at h
    norm_num at h
  unfold clipT signFix
  rcases lt_trichotomy t 0 with hlt | heq | hgt
  · rw [if_pos hlt, max_eq_left h, abs_of_neg hlt]
    ring
  · exact absurd heq ht
  · rw [if_neg (not_lt.mpr hgt.le), max_eq_left h, abs_of_pos hgt]
    ring

/-- C1: when every treatment residual has magnitude at least `1e-5` (so the
clipping is the identity), the weighted loss minimized by the weight-trick
fit — weight `T_i ** 2` against target `Y_i / clipped_T_i` — equals, at every
candidate prediction vector, the residual-on-residual loss minimized by the
standard-mode fit, and therefore the two fits have exactly the same
minimizers over any candidate set, so an exact-loss-minimizing (ordinary
least squares) regressor yields the same CATE predictions in both modes. -/
theorem weight_trick_loss_equivalence {n : ℕ} (T Y : Fin n → ℚ)
    (h : ∀ i, 1 / 100000 ≤ |T i|) :
    (∀ i, clipT (T i) = T i) ∧
    (∀ c, wtLoss T Y c = stdLoss T Y c) ∧
    (∀ (S : Set (Fin n → ℚ)) (c : Fin n → ℚ),
      ((∀ c' ∈ S, wtLoss T Y c ≤ wtLoss T Y c') ↔
       (∀ c' ∈ S, stdLoss T Y c ≤ stdLoss T Y c'))) := by
  have hclip : ∀ i, clipT (T i) = T i := fun i => clipT_eq_of_large (T i) (h i)
  have hne : ∀ i, T i ≠ 0 := by
    intro i h0
    have := h i
    rw [h0] at this
    norm_num at this
  have hloss : ∀ c, wtLoss T Y c = stdLoss T Y c := by
    intro c
    unfold wtLoss stdLoss
    refine Finset.sum_congr rfl fun i _ => ?_
    rw [hclip i]
    have hti := hne i
    field_simp
    ring
  refine ⟨hclip, hloss, fun S c => ?_⟩
  constructor
  · intro hm c' hc'
    rw [← hloss c, ← hloss c']
    exact hm c' hc'
  · intro hm c' hc'
    rw [hloss c, hloss c']
    exact hm c' hc'

/-- C1 witness: the theorem applied at the one-sample input `T = (1)`,
`Y = (2)`. -/
theorem weight_trick_loss_equivalence_witness :
    (∀ i : Fin 1, 1 / 100000 ≤ |(fun _ : Fin 1 => (1 : ℚ)) i|) ∧
    ((∀ i, clipT ((fun _ : Fin 1 => (1 : ℚ)) i) = (fun _ : Fin 1 => (1 : ℚ)) i) ∧
     (∀ c, wtLoss (fun _ : Fin 1 => (1 : ℚ)) (fun _ => 2) c
        = stdLoss (fun _ : Fin 1 => (1 : ℚ)) (fun _ => 2) c) ∧
     (∀ (S : Set (Fin 1 → ℚ)) (c : Fin 1 → ℚ),
      ((∀ c' ∈ S, wtLoss (fun _ : Fin 1 => (1 : ℚ)) (fun _ => 2) c
          ≤ wtLoss (fun _ : Fin 1 => (1 : ℚ)) (fun _ => 2) c') ↔
       (∀ c' ∈ S, stdLoss (fun _ : Fin 1 => (1 : ℚ)) (fun _ => 2) c
          ≤ stdLoss (fun _ : Fin 1 => (1 : ℚ)) (fun _ => 2) c')))) :=
  ⟨fun _ => by norm_num,
   weight_trick_loss_equivalence (fun _ => 1) (fun _ => 2) (fun _ => by norm_num)⟩

theorem idx_div (i t d : ℕ) (ht : t < d) : (i * d + t) / d = i := by
  have hd : 0 < d := Nat.lt_of_le_of_lt (Nat.zero_le t) ht
  rw [Nat.mul_comm i d, Nat.mul_add_div hd]
  simp [Nat.div_eq_of_lt ht]

theorem idx_mod (i t d : ℕ) (ht : t < d) : (i * d + t) % d = t := by
  rw [Nat.mul_comm i d, Nat.mul_add_mod]
  exact Nat.mod_eq_of_lt ht

theorem idx_lt (i t n d : ℕ) (hi : i < n) (ht : t < d) : i * d + t < n * d := by
  have h2 : i * d + d = (i + 1) * d := by ring
  have h3 : (i + 1) * d ≤ n * d := Nat.mul_le_mul_right d hi
  omega

theorem getD_replicate_lt {α : Type} (n k : ℕ) (a d : α) (h : k < n) :
    (List.replicate n a).getD k d = a := by
  rw [List.getD_eq_getElem _ _ (by simpa using h)]
  simp

/-- The length of the adjusted prediction block equals the number of design
rows. -/
theorem adjustedRows_length (g : FittedFinal) (M : Mat) :
    (g.adjustedRows M).length = M.length := by
  unfold FittedFinal.adjustedRows
  cases g.intercept <;> simp

/-- The CATE tensor described by the spec: entry `[i][y][t]` is the fitted
model's prediction on the design row built from the (already-fitted) features
of the `i`-th requested row crossed with the `t`-th unit treatment vector,
minus the recorded intercept correction; when `X` is absent a single implicit
row with feature block `[1]` is used. -/
def expectedCATE (g : FittedFinal) (X : Option Mat) : Tensor3 :=
  let dt := g.d_t.headD 1
  let dy := g.d_y.headD 1
  let n := match X with
    | some x => x.length
    | none => 1
  let featRow : ℕ → List ℚ := fun i => match X with
    | some x =>
      match g.w.featurizer with
      | some f => f.row (x.getD i [])
      | none => x.getD i []
    | none => [1]
  let icv := g.intercept.getD (List.replicate dy 0)
  (List.range n).map fun i =>
    (List.range dy).map fun y =>
      (List.range dt).map fun t =>
        (g.predictor.predict (crossRow (featRow i) (unitRow dt t))).getD y 0
          - icv.getD y 0

/-- Reshaping the intercept-adjusted predictions extracts, entrywise, the raw
prediction on the corresponding design row minus the intercept correction. -/
theorem reshape_adjusted (g : FittedFinal) (M : Mat) (n dt : ℕ)
    (hdtpos : 0 < dt) (hdteq : g.d_t.headD 1 = dt) (hlen : M.length = n * dt)
    (hp : ∀ r, (g.predictor.predict r).length = g.d_y.headD 1)
    (hic : ∀ ic, g.intercept = some ic → ic.length = g.d_y.headD 1) :
    reshape_treatmentwise_effects (g.adjustedRows M) g.d_t g.d_y
      = (List.range n).map fun i =>
          (List.range (g.d_y.headD 1)).map fun y =>
            (List.range dt).map fun t =>
              (g.predictor.predict (M.getD (i * dt + t) [])).getD y 0
                - (g.intercept.getD (List.replicate (g.d_y.headD 1) 0)).getD y 0 := by
  unfold reshape_treatmentwise_effects
  dsimp only
  rw [hdteq, adjustedRows_length, hlen, Nat.mul_div_cancel n hdtpos]
  refine List.map_congr_left fun i hi => ?_
  refine List.map_congr_left fun y hy => ?_
  refine List.map_congr_left fun t ht => ?_
  rw [List.mem_range] at hi hy ht
  have hk : i * dt + t < M.length := by
    rw [hlen]
    exact idx_lt i t n dt hi ht
  rcases hicase : g.intercept with _ | ic
  · have hrows : g.adjustedRows M = M.map g.predictor.predict := by
      unfold FittedFinal.adjustedRows
      rw [hicase]
    rw [hrows, getD_map_lt g.predictor.predict M _ hk _ [],
      Option.getD_none, getD_replicate_lt _ _ _ _ hy, sub_zero]
  · have hrows : g.adjustedRows M
        = (M.map g.predictor.predict).map fun r =>
            List.zipWith (fun a b => a - b) r ic := by
      unfold FittedFinal.adjustedRows
      rw [hicase]
    have hk2 : i * dt + t < (M.map g.predictor.predict).length := by
      simpa using hk
    rw [hrows, getD_map_lt _ _ _ hk2 _ [], getD_map_lt _ _ _ hk _ [],
      Option.getD_some]
    exact getD_zipWith_lt _ _ _ y
      (by rw [hp]; exact hy) (by rw [hic ic hicase]; exact hy) 0 0 0

/-- C6: for every fitted final wrapper and every `X` with `n` rows, `predict`
returns the `(n, d_y, d_t)` tensor whose entry `[i, y, t]` is the model's
prediction on the design row built from the already-fitted features of row
`i` crossed with the `t`-th unit treatment vector, minus the recorded
intercept correction; when `X` is absent a single implicit row is used and
the result has shape `(1, d_y, d_t)`. -/
theorem predict_tensor (g : FittedFinal) (X : Option Mat)
    (hdt : 0 < g.d_t.headD 1)
    (hX : X = none → g.w.fitCateIntercept = true)
    (hp : ∀ r, (g.predictor.predict r).length = g.d_y.headD 1)
    (hic : ∀ ic, g.intercept = some ic → ic.length = g.d_y.headD 1) :
    g.predict X = .ok (expectedCATE g X) := by
  cases X with
  | some x =>
    unfold FittedFinal.predict FinalWrapper.combine expectedCATE
    dsimp only
    congr 1
    rcases hfz : g.w.featurizer with _ | f
    · dsimp only
      have hM : (cross_product
          ((List.range (x.length * g.d_t.headD 1)).map fun k =>
            x.getD (k / g.d_t.headD 1) [])
          ((List.range (x.length * g.d_t.headD 1)).map fun k =>
            unitRow (g.d_t.headD 1) (k % g.d_t.headD 1))).length
          = x.length * g.d_t.headD 1 := by
        simp [cross_product, List.length_zipWith, List.length_map, List.length_range]
      rw [reshape_adjusted g _ x.length (g.d_t.headD 1) hdt rfl hM hp hic]
      refine List.map_congr_left fun i hi => ?_
      refine List.map_congr_left fun y hy => ?_
      refine List.map_congr_left fun t ht => ?_
      rw [List.mem_range] at hi ht
      have hk : i * g.d_t.headD 1 + t < x.length * g.d_t.headD 1 :=
        idx_lt i t x.length (g.d_t.headD 1) hi ht
      have harg : (cross_product
          ((List.range (x.length * g.d_t.headD 1)).map fun k =>
            x.getD (k / g.d_t.headD 1) [])
          ((List.range (x.length * g.d_t.headD 1)).map fun k =>
            unitRow (g.d_t.headD 1) (k % g.d_t.headD 1))).getD
            (i * g.d_t.headD 1 + t) []
          = crossRow (x.getD i []) (unitRow (g.d_t.headD 1) t) := by
        unfold cross_product
        rw [getD_zipWith_lt crossRow _ _ _ (by simpa using hk) (by simpa using hk) [] [] [],
          getD_range_map _ _ _ hk, getD_range_map _ _ _ hk,
          idx_div i t _ ht, idx_mod i t _ ht]
      rw [harg]
    · dsimp only
      simp only [Bool.false_eq_true, if_false]
      have hM : (cross_product
          (Featurizer.transform f ((List.range (x.length * g.d_t.headD 1)).map fun k =>
            x.getD (k / g.d_t.headD 1) []))
          ((List.range (x.length * g.d_t.headD 1)).map fun k =>
            unitRow (g.d_t.headD 1) (k % g.d_t.headD 1))).length
          = x.length * g.d_t.headD 1 := by
        simp [cross_product, Featurizer.transform, List.length_zipWith,
          List.length_map, List.length_range]
      rw [reshape_adjusted g _ x.length (g.d_t.headD 1) hdt rfl hM hp hic]
      refine List.map_congr_left fun i hi => ?_
      refine List.map_congr_left fun y hy => ?_
      refine List.map_congr_left fun t ht => ?_
      rw [List.mem_range] at hi ht
      have hk : i * g.d_t.headD 1 + t < x.length * g.d_t.headD 1 :=
        idx_lt i t x.length (g.d_t.headD 1) hi ht
      have harg : (cross_product
          (Featurizer.transform f ((List.range (x.length * g.d_t.headD 1)).map fun k =>
            x.getD (k / g.d_t.headD 1) []))
          ((List.range (x.length * g.d_t.headD 1)).map fun k =>
            unitRow (g.d_t.headD 1) (k % g.d_t.headD 1))).getD
            (i * g.d_t.headD 1 + t) []
          = crossRow (f.row (x.getD i [])) (unitRow (g.d_t.headD 1) t) := by
        unfold cross_product Featurizer.transform
        rw [getD_zipWith_lt crossRow _ _ _
            (by simpa using hk) (by simpa using hk) [] [] [],
          getD_map_lt f.row _ _ (by simpa using hk) [] [],
          getD_range_map _ _ _ hk, getD_range_map _ _ _ hk,
          idx_div i t _ ht, idx_mod i t _ ht]
      rw [harg]
  | none =>
    have hfci : g.w.fitCateIntercept = true := hX rfl
    unfold FittedFinal.predict FinalWrapper.combine expectedCATE
    dsimp only
    simp only [hfci, Bool.not_true, Bool.false_eq_true, if_false,
      List.length_singleton]
    congr 1
    have hTlen : ((List.range ((1 : ℕ) * g.d_t.headD 1)).map fun k =>
        unitRow (g.d_t.headD 1) (k % g.d_t.headD 1)).length
        = 1 * g.d_t.headD 1 := by
      simp
    have hM : (cross_product
        (onesMat ((List.range ((1 : ℕ) * g.d_t.headD 1)).map fun k =>
          unitRow (g.d_t.headD 1) (k % g.d_t.headD 1)).length)
        ((List.range ((1 : ℕ) * g.d_t.headD 1)).map fun k =>
          unitRow (g.d_t.headD 1) (k % g.d_t.headD 1))).length
        = 1 * g.d_t.headD 1 := by
      simp [cross_product, List.length_zipWith, onesMat]
    rw [reshape_adjusted g _ 1 (g.d_t.headD 1) hdt rfl hM hp hic]
    refine List.map_congr_left fun i hi => ?_
    refine List.map_congr_left fun y hy => ?_
    refine List.map_congr_left fun t ht => ?_
    rw [List.mem_range] at hi ht
    have hk : i * g.d_t.headD 1 + t < 1 * g.d_t.headD 1 :=
      idx_lt i t 1 (g.d_t.headD 1) hi ht
    have harg : (cross_product
        (onesMat ((List.range ((1 : ℕ) * g.d_t.headD 1)).map fun k =>
          unitRow (g.d_t.headD 1) (k % g.d_t.headD 1)).length)
        ((List.range ((1 : ℕ) * g.d_t.headD 1)).map fun k =>
          unitRow (g.d_t.headD 1) (k % g.d_t.headD 1))).getD
          (i * g.d_t.headD 1 + t) []
        = crossRow [1] (unitRow (g.d_t.headD 1) t) := by
      unfold cross_product
      rw [getD_zipWith_lt crossRow _ _ _
          (by simp only [onesMat, List.length_replicate, hTlen]; exact hk)
          (by simpa using hk) [] [] []]
      rw [hTlen]
      rw [show (onesMat (1 * g.d_t.headD 1)).getD (i * g.d_t.headD 1 + t) ([] : List ℚ)
          = [1] from getD_replicate_lt _ _ _ _ hk,
        getD_range_map _ _ _ hk, idx_mod i t _ ht]
    rw [harg]

/-- A concrete fitted final wrapper used to instantiate the prediction
theorem. -/
def c6g : FittedFinal :=
  ⟨⟨false, false, none⟩, ⟨fun _ => [3]⟩, none, [], [], false⟩

/-- C6 witness: the prediction theorem applied to a concrete fitted wrapper
and a concrete two-row `X`. -/
theorem predict_tensor_witness :
    c6g.predict (some [[1], [2]]) = .ok (expectedCATE c6g (some [[1], [2]])) :=
  predict_tensor c6g (some [[1], [2]]) Nat.one_pos
    (fun h => by cases h) (fun _ => rfl) (fun _ h => by cases h)

/-- C5: after every standard-mode fit that succeeds, the fitted model is
probed on one all-zero design row; when the probe is non-zero in any output
it is recorded as the intercept correction and the non-fatal warning flag is
set while the fit still completes, and when the probe is zero nothing is
recorded and no warning is emitted; prediction always subtracts the recorded
correction from the raw model outputs (and leaves them unmodified when no
correction was recorded). -/
theorem standard_fit_intercept_correction (w : FinalWrapper)
    (hw : w.useWeightTrick = false) (model : Regressor) (X : Option Mat)
    (T Y : NArr) (sw sv : Option (List ℚ)) (fts : Mat)
    (hc : w.combine X T.toMat true = .ok fts) (g : FittedFinal)
    (hfit : w.fit model X T Y sw sv = .ok g) :
    g.predictor = model.fit fts Y.toMat sw sv ∧
    (((((fts.take 1).map fun r =>
          g.predictor.predict (r.map fun _ => (0 : ℚ))).flatten.any fun c =>
            decide (c ≠ 0)) = true →
        g.intercept = some (((fts.take 1).map fun r =>
          g.predictor.predict (r.map fun _ => (0 : ℚ))).flatten) ∧
        g.warnedIntercept = true) ∧
     ((((fts.take 1).map fun r =>
          g.predictor.predict (r.map fun _ => (0 : ℚ))).flatten.any fun c =>
            decide (c ≠ 0)) = false →
        g.intercept = none ∧ g.warnedIntercept = false)) ∧
    (∀ M : Mat, g.adjustedRows M =
      match g.intercept with
      | some ic => (M.map g.predictor.predict).map fun r =>
          List.zipWith (fun a b => a - b) r ic
      | none => M.map g.predictor.predict) := by
  unfold FinalWrapper.fit at hfit
  rw [hw] at hfit
  simp only [Bool.not_false, if_true] at hfit
  rw [hc] at hfit
  dsimp only at hfit
  split at hfit
  · rename_i hany
    cases hfit
    refine ⟨rfl, ⟨fun _ => ⟨rfl, rfl⟩, fun hfalse => ?_⟩, fun M => rfl⟩
    rw [hany] at hfalse
    cases hfalse
  · rename_i hany
    have hany' : ((((fts.take 1).map fun r =>
        (model.fit fts Y.toMat sw sv).predict (r.map fun _ => (0 : ℚ))).flatten.any
          fun c => decide (c ≠ 0)) = false) := by
      rcases Bool.eq_false_or_eq_true (((fts.take 1).map fun r =>
          (model.fit fts Y.toMat sw sv).predict (r.map fun _ => (0 : ℚ))).flatten.any
            fun c => decide (c ≠ 0)) with h | h
      · exact absurd h hany
      · exact h
    cases hfit
    refine ⟨rfl, ⟨fun htrue => ?_, fun _ => ⟨rfl, rfl⟩⟩, fun M => rfl⟩
    rw [hany'] at htrue
    cases htrue

/-- The concrete design block of the witness fit. -/
def c5fts : Mat := cross_product [[1]] (NArr.vec [1]).toMat

/-- The concrete fitted state produced by the witness fit: the constant
predictor `[3]` has a nonzero probe, so the correction `[3]` is recorded and
the warning flag set. -/
def c5g : FittedFinal :=
  ⟨FinalWrapper.init false none false,
   constReg3.fit c5fts (NArr.vec [1]).toMat none none,
   some (((c5fts.take 1).map fun r =>
     (constReg3.fit c5fts (NArr.vec [1]).toMat none none).predict
       (r.map fun _ => (0 : ℚ))).flatten),
   [], [], true⟩

/-- C5 witness: the intercept-correction theorem applied to a concrete
standard-mode fit whose probe is nonzero. -/
theorem standard_fit_intercept_correction_witness :
    c5g.predictor = constReg3.fit c5fts (NArr.vec [1]).toMat none none ∧
    (((((c5fts.take 1).map fun r =>
          c5g.predictor.predict (r.map fun _ => (0 : ℚ))).flatten.any fun c =>
            decide (c ≠ 0)) = true →
        c5g.intercept = some (((c5fts.take 1).map fun r =>
          c5g.predictor.predict (r.map fun _ => (0 : ℚ))).flatten) ∧
        c5g.warnedIntercept = true) ∧
     ((((c5fts.take 1).map fun r =>
          c5g.predictor.predict (r.map fun _ => (0 : ℚ))).flatten.any fun c =>
            decide (c ≠ 0)) = false →
        c5g.intercept = none ∧ c5g.warnedIntercept = false)) ∧
    (∀ M : Mat, c5g.adjustedRows M =
      match c5g.intercept with
      | some ic => (M.map c5g.predictor.predict).map fun r =>
          List.zipWith (fun a b => a - b) r ic
      | none => M.map c5g.predictor.predict) :=
  standard_fit_intercept_correction (FinalWrapper.init false none false) rfl
    constReg3 (some [[1]]) (.vec [1]) (.vec [1]) none none c5fts rfl c5g rfl
